import Mathlib

/-!
Verification of the martingale trading core of the `voltexprofit/trading-bot`
repository (`src/core/trading.py`, `src/utils/calculations.py`,
`src/config/settings.py`, `src/core/exchanges.py`).

Modelling conventions:

* Python floats are embedded as exact rationals (`ℚ`).  Python's `round(x, n)`
  (round half to even on the decimal scaled value) is `pyRound n`.  All
  concrete counterexamples below were chosen so that their outcome is the same
  under exact rational arithmetic and under IEEE-754 binary64 arithmetic.
* `should_add_martingale_level` is the one function whose specified behaviour
  at the trigger boundary is decided by binary64 round-off, so for it we embed
  binary64 arithmetic exactly: `roundDouble` rounds a rational to the nearest
  binary64 value (round to nearest, ties to even; normal range), and the
  function composes the correctly-rounded subtraction, division and
  multiplication exactly as CPython evaluates the source expression.
* The exchange gateway (`src/core/exchanges.py`) swallows every exception and
  returns sentinels (`None`, `0.0`, `False`), so each gateway call is modelled
  as an explicit oracle argument carrying the response of that call.
* Code paths where the Python source would raise inside the `try` block of an
  engine method (e.g. `ZeroDivisionError`, `IndexError`) are modelled by the
  corresponding `except` handler's effect, exactly as the handler is written.
-/

/-- Round a rational to the nearest integer, ties to even
(the tie-breaking rule shared by Python's `round` and IEEE-754). -/
def rne (q : ℚ) : ℤ :=
  if q - ⌊q⌋ < 1/2 then ⌊q⌋
  else if 1/2 < q - ⌊q⌋ then ⌊q⌋ + 1
  else if ⌊q⌋ % 2 = 0 then ⌊q⌋ else ⌊q⌋ + 1

/-- Python's `round(x, n)` on exact rationals. -/
def pyRound (n : ℕ) (q : ℚ) : ℚ :=
  (rne (q * 10 ^ n) : ℚ) / 10 ^ n

/-! ## Exact binary64 (IEEE-754 double) rounding, normal range -/

/-- Round a rational to the nearest IEEE-754 binary64 value (round to nearest,
ties to even).  Faithful for results in the normal finite range; the trading
code only ever handles such magnitudes. -/
def roundDouble (q : ℚ) : ℚ :=
  if q = 0 then 0
  else
    (if 0 < q then 1 else -1) *
      (rne (|q| * 2 ^ (52 - Int.log 2 |q|)) : ℚ) * 2 ^ (Int.log 2 |q| - 52)

/-- Correctly rounded binary64 subtraction. -/
def fsub (x y : ℚ) : ℚ := roundDouble (x - y)

/-- Correctly rounded binary64 division. -/
def fdiv (x y : ℚ) : ℚ := roundDouble (x / y)

/-- Correctly rounded binary64 multiplication. -/
def fmul (x y : ℚ) : ℚ := roundDouble (x * y)

/-! ## Binary64 values of the decimal literals used by the specification -/

/-- The binary64 value of the Python literal `98.89`. -/
def dbl9889 : ℚ := 6958765111729193 / 70368744177664

/-- The binary64 value of the Python literal `98.9`. -/
def dbl989 : ℚ := 6959468799170970 / 70368744177664

/-- The binary64 value of the Python literal `1.1`. -/
def dbl11 : ℚ := 4953959590107546 / 4503599627370496

/-! ## src/utils/calculations.py — `should_add_martingale_level` -/

/-- `should_add_martingale_level(current_price, reference_price, drop_trigger)`
from `src/utils/calculations.py`, embedded with exact binary64 arithmetic
(CPython evaluates `drop_pct = (reference - current) / reference * 100` in
binary64, and the specified behaviour at the trigger boundary depends on the
round-off of those three operations).  The leading disjunction mirrors the
source guard `if not reference_price or reference_price <= 0: return False`. -/
def should_add_martingale_level (current_price reference_price drop_trigger : ℚ) :
    Bool :=
  if reference_price = 0 ∨ reference_price ≤ 0 then false
  else if drop_trigger ≤ fmul (fdiv (fsub reference_price current_price) reference_price) 100
  then true
  else false

/-! ## src/config/settings.py — strategy constants and sequence generation

The configuration constants are embedded at their shipped default values
(`settings.py` reads them from the environment with these defaults and
`validate_settings()` enforces the documented bounds at import time). -/

def BALANCE_PERCENTAGE : ℚ := 1 / 500

def LEVERAGE : ℤ := 25

def TAKE_PROFIT_PCT : ℚ := 14 / 25

def MARTINGALE_MULTIPLIER : ℚ := 27 / 20

def MARTINGALE_LEVELS : ℕ := 11

/-- `PRICE_DROP_TRIGGER = float('1.1')`: the binary64 value of the literal. -/
def PRICE_DROP_TRIGGER : ℚ := dbl11

def MIN_BALANCE : ℚ := 1 / 2

/-- The loop of `get_martingale_sequence`: append `round(current_amount, 4)`,
then multiply the (unrounded) running amount by `MARTINGALE_MULTIPLIER`. -/
def martingaleSeqGo : ℕ → ℚ → List ℚ
  | 0, _ => []
  | n + 1, current_amount =>
      pyRound 4 current_amount :: martingaleSeqGo n (current_amount * MARTINGALE_MULTIPLIER)

/-- `get_martingale_sequence(base_amount)` from `src/config/settings.py`. -/
def get_martingale_sequence (base_amount : ℚ) : List ℚ :=
  martingaleSeqGo MARTINGALE_LEVELS base_amount

/-- `calculate_base_amount(balance)` from `src/config/settings.py`. -/
def calculate_base_amount (balance : ℚ) : ℚ :=
  pyRound 4 (balance * BALANCE_PERCENTAGE)

/-! ## src/utils/calculations.py — remaining pure calculators -/

/-- `calculate_dynamic_martingale_sequence(balance)`. -/
def calculate_dynamic_martingale_sequence (balance : ℚ) : List ℚ :=
  get_martingale_sequence (calculate_base_amount balance)

/-- `calculate_position_size(margin_amount, leverage, price)`.  The source
divides by `price` with no guard, so `price = 0` raises `ZeroDivisionError`,
modelled as `none`; every other input returns `round(margin·leverage/price, 6)`. -/
def calculate_position_size (margin_amount : ℚ) (leverage : ℤ) (price : ℚ) :
    Option ℚ :=
  if price = 0 then none
  else some (pyRound 6 (margin_amount * leverage / price))

/-- One entry of `position_levels` (the `timestamp` key is logging-only and
not modelled). -/
structure PositionLevel where
  price : ℚ
  margin : ℚ
  contracts : ℚ
  level : ℕ
  deriving DecidableEq, Repr

/-- `calculate_weighted_average_entry(position_levels)`. -/
def calculate_weighted_average_entry (position_levels : List PositionLevel) :
    Option ℚ :=
  if position_levels = [] then none
  else
    let total_contracts := (position_levels.map PositionLevel.contracts).sum
    if total_contracts ≤ 0 then none
    else some ((position_levels.map (fun l => l.price * l.contracts)).sum / total_contracts)

/-- `calculate_profit_percentage(current_price, entry_price)`. -/
def calculate_profit_percentage (current_price entry_price : ℚ) : ℚ :=
  if entry_price ≤ 0 then 0
  else (current_price - entry_price) / entry_price * 100

/-- `calculate_margin_return(profit_pct, leverage)`. -/
def calculate_margin_return (profit_pct : ℚ) (leverage : ℤ) : ℚ :=
  profit_pct * leverage

/-- `should_take_profit(current_price, weighted_avg_entry, take_profit_pct)`.
The leading disjunction mirrors
`if not weighted_avg_entry or weighted_avg_entry <= 0: return False`. -/
def should_take_profit (current_price weighted_avg_entry take_profit_pct : ℚ) :
    Bool :=
  if weighted_avg_entry = 0 ∨ weighted_avg_entry ≤ 0 then false
  else if take_profit_pct ≤ calculate_profit_percentage current_price weighted_avg_entry
  then true
  else false

/-- `validate_trade_parameters(balance, margin_amount, leverage, price)`. -/
def validate_trade_parameters (balance margin_amount : ℚ) (leverage : ℤ)
    (price : ℚ) : Bool × String :=
  if balance ≤ 0 then (false, "Invalid balance")
  else if margin_amount ≤ 0 then (false, "Invalid margin amount")
  else if balance < margin_amount then (false, "Insufficient balance for margin")
  else if leverage < 1 ∨ 100 < leverage then (false, "Invalid leverage")
  else if price ≤ 0 then (false, "Invalid price")
  else (true, "")

/-! ## src/core/exchanges.py — gateway adapter surface

Every adapter method wraps its body in `try/except` and converts failures to
sentinels (`None`, `0.0`, `False`), so the state machine below receives each
gateway response as an explicit oracle argument.  Only `round_amount` and the
rejection logic of `place_market_order` carry real logic of their own. -/

inductive ExchangeType where
  | binance
  | bybit
  deriving DecidableEq, Repr

/-- Truncation toward zero (`decimal.ROUND_DOWN`). -/
def itrunc (q : ℚ) : ℤ :=
  if 0 ≤ q then ⌊q⌋ else -⌊-q⌋

/-- `round_amount(amount, exchange_type)`: quantize with `ROUND_DOWN` to 6
decimals on binance, 4 on bybit. -/
def round_amount (exchange_type : ExchangeType) (amount : ℚ) : ℚ :=
  match exchange_type with
  | .binance => (itrunc (amount * 10 ^ 6) : ℚ) / 10 ^ 6
  | .bybit => (itrunc (amount * 10 ^ 4) : ℚ) / 10 ^ 4

inductive Side where
  | buy
  | sell
  deriving DecidableEq, Repr

structure Order where
  side : Side
  amount : ℚ
  reduceOnly : Bool
  deriving DecidableEq, Repr

/-- Observable actions of one engine call: the `log_trade` notifications of
`src/core/trading.py` plus `orderSubmitted` (emitted exactly when
`place_market_order` reaches `exchange.create_market_order`, i.e. when the
rounded amount is positive) and one trace marker per call site inside
`process_user_trading`. -/
inductive Event where
  | orderSubmitted (side : Side) (amount : ℚ) (reduceOnly : Bool)
  | cycleStarted (price amount margin : ℚ)
  | martingaleAdded (level : ℕ) (price amount : ℚ)
  | cycleCompleted (profit_pct profit_usd : ℚ) (cycle : ℕ)
  | emergencyClosed (amount : ℚ)
  | strategyUpdated (old_balance new_balance : ℚ)
  | tpEvaluated (result : Bool)
  | startCycleInvoked
  | closeInvoked
  | addLevelInvoked
  deriving DecidableEq, Repr

/-- `place_market_order(exchange, exchange_type, symbol, side, amount, ...)`:
round the amount, reject non-positive rounded amounts before reaching the
exchange, then the `orderOk` oracle reports whether `create_market_order`
succeeded (on failure the adapter logs and returns `None`). -/
def place_market_order (exchange_type : ExchangeType) (side : Side)
    (amount : ℚ) (reduceOnly : Bool) (orderOk : Bool) :
    Option Order × List Event :=
  let amt := round_amount exchange_type amount
  if amt ≤ 0 then (none, [])
  else if orderOk then
    (some ⟨side, amt, reduceOnly⟩, [.orderSubmitted side amt reduceOnly])
  else (none, [.orderSubmitted side amt reduceOnly])

/-! ## src/core/trading.py — data model of the per-user record

Only the keys read or written by the trading engine are modelled; keys used
purely for presentation, logging or timestamps are omitted.  `exchange`
truthiness (`user_data.get('exchange')`) is the Boolean
`exchange_connected`. -/

inductive TradeType where
  | openLevel1
  | martingaleLevel (level : ℕ)
  | closeAllTp
  deriving DecidableEq, Repr

/-- `startswith('open_') or startswith('martingale_')`. -/
def TradeType.isOpening : TradeType → Bool
  | .openLevel1 => true
  | .martingaleLevel _ => true
  | .closeAllTp => false

/-- `startswith('close') or startswith('emergency')`. -/
def TradeType.isClosing : TradeType → Bool
  | .closeAllTp => true
  | _ => false

/-- One record of `closed_trades` (timestamp, exchange name, symbol and
`balance_after` are logging-only and not modelled). -/
structure TradeRecord where
  trade_id : Option ℕ
  ttype : TradeType
  price : ℚ
  amount : ℚ
  margin_used : ℚ
  profit_usd : ℚ
  cycle_number : ℕ
  deriving DecidableEq, Repr

structure UserData where
  setup_complete : Bool
  trading_enabled : Bool
  safe_stop_requested : Bool
  trade_in_progress : Bool
  is_active : Bool
  exchange_connected : Bool
  exchange_type : ExchangeType
  leverage : ℤ
  take_profit_pct : ℚ
  base_amount : ℚ
  martingale_sequence : List ℚ
  current_step : ℕ
  entry_price : Option ℚ
  position_levels : List PositionLevel
  martingale_trigger_prices : List ℚ
  cycle_count : ℕ
  total_trades : ℕ
  total_profit : ℚ
  closed_trades : List TradeRecord
  current_balance : ℚ
  deriving DecidableEq, Repr

/-- `TradingEngine.record_trade`: opening trades increment `total_trades` and
take it as their id; records are appended to `closed_trades` only for closing
or emergency trade types or a non-zero `profit_usd`. -/
def record_trade (u : UserData) (t : TradeType)
    (price amount margin_used profit_usd : ℚ) : UserData :=
  let u1 := if t.isOpening then { u with total_trades := u.total_trades + 1 } else u
  let tid : Option ℕ := if t.isOpening then some u1.total_trades else none
  let rec1 : TradeRecord :=
    ⟨tid, t, price, amount, margin_used, profit_usd, u.cycle_count + 1⟩
  if t.isClosing ∨ profit_usd ≠ 0 then
    { u1 with closed_trades := u1.closed_trades ++ [rec1] }
  else u1

/-! ## src/core/trading.py — engine transitions

Each transition takes the responses of the gateway calls it performs as
explicit oracle arguments, in source order.  `get_price` can never return
`0.0` (the adapter maps a falsy ticker to `None`), but the engine's own guard
`if not current_price` also treats `some 0` as a failure, and the model keeps
that guard. -/

/-- `TradingEngine.update_balance_strategy`: refresh the balance and, when it
moved by strictly more than 1% of `max(last_balance, 1)`, recompute
`base_amount` and regenerate `martingale_sequence` from the new balance. -/
def update_balance_strategy (balanceR : ℚ) (u : UserData) :
    UserData × List Event :=
  let last_balance := u.current_balance
  if 1/100 < |balanceR - last_balance| / max last_balance 1 then
    ({ u with
        current_balance := balanceR
        base_amount := calculate_base_amount balanceR
        martingale_sequence := calculate_dynamic_martingale_sequence balanceR },
     [.strategyUpdated last_balance balanceR])
  else (u, [])

/-- `TradingEngine.start_new_cycle`.  An empty `martingale_sequence` would
raise `IndexError` at `[0]`; the `except` handler clears `trade_in_progress`
and returns failure, which the `[]` branch models.  The `set_leverage` call's
result is ignored by the source and therefore not an oracle argument. -/
def start_new_cycle (priceR : Option ℚ) (balanceR : ℚ) (orderOk : Bool)
    (u : UserData) : UserData × Bool × List Event :=
  if u.trade_in_progress ∨ u.is_active then (u, false, [])
  else
    let u1 := { u with trade_in_progress := true }
    match priceR with
    | none => ({ u1 with trade_in_progress := false }, false, [])
    | some current_price =>
      if current_price = 0 then ({ u1 with trade_in_progress := false }, false, [])
      else if balanceR < MIN_BALANCE then
        ({ u1 with trade_in_progress := false }, false, [])
      else
        match u1.martingale_sequence with
        | [] => ({ u1 with trade_in_progress := false }, false, [])
        | margin_amount :: _ =>
          if (validate_trade_parameters balanceR margin_amount u1.leverage current_price).1 = false
          then ({ u1 with trade_in_progress := false }, false, [])
          else
            match calculate_position_size margin_amount u1.leverage current_price with
            | none => ({ u1 with trade_in_progress := false }, false, [])
            | some position_size =>
              match place_market_order u1.exchange_type .buy position_size false orderOk with
              | (some _, ev) =>
                let u2 := { u1 with
                  current_step := 0
                  entry_price := some current_price
                  is_active := true
                  position_levels := [⟨current_price, margin_amount, position_size, 1⟩]
                  martingale_trigger_prices := [] }
                let u3 := record_trade u2 .openLevel1 current_price position_size margin_amount 0
                ({ u3 with trade_in_progress := false }, true,
                  ev ++ [.cycleStarted current_price position_size margin_amount])
              | (none, ev) => ({ u1 with trade_in_progress := false }, false, ev)

/-- `TradingEngine.check_take_profit`. -/
def check_take_profit (priceR : Option ℚ) (u : UserData) : Bool :=
  match priceR with
  | none => false
  | some current_price =>
    if current_price = 0 then false
    else
      match calculate_weighted_average_entry u.position_levels with
      | none => false
      | some weighted_avg_entry =>
        if weighted_avg_entry = 0 then false
        else should_take_profit current_price weighted_avg_entry u.take_profit_pct

/-- `TradingEngine.should_add_martingale`.  The max-level guard is
`current_step >= len(martingale_sequence) - 1` (with the Python `-1` becoming
truncated subtraction here, which agrees for every length). -/
def should_add_martingale (priceR : Option ℚ) (u : UserData) : Bool :=
  match priceR with
  | none => false
  | some current_price =>
    if current_price = 0 then false
    else if u.martingale_sequence.length - 1 ≤ u.current_step then false
    else
      let referenceR : Option ℚ :=
        if u.current_step = 0 then u.entry_price
        else
          match u.martingale_trigger_prices.getLast? with
          | some p => some p
          | none => u.entry_price
      match referenceR with
      | none => false
      | some reference_price =>
        if reference_price = 0 then false
        else should_add_martingale_level current_price reference_price PRICE_DROP_TRIGGER

/-- `TradingEngine.add_martingale_level`.  The source increments
`current_step` first and reverts it on every failure path (insufficient
balance, rejected order, or an exception — `IndexError` when the incremented
step is out of range of `martingale_sequence`, handled by
`max(0, current_step - 1)`), so failures leave no net change; the model
returns the unchanged record on those paths. -/
def add_martingale_level (priceR : Option ℚ) (balanceR : ℚ) (orderOk : Bool)
    (u : UserData) : UserData × Bool × List Event :=
  match priceR with
  | none => (u, false, [])
  | some current_price =>
    if current_price = 0 then (u, false, [])
    else
      let step := u.current_step + 1
      if hstep : step < u.martingale_sequence.length then
        let margin_amount := u.martingale_sequence.get ⟨step, hstep⟩
        match calculate_position_size margin_amount u.leverage current_price with
        | none => (u, false, [])
        | some position_size =>
          if balanceR < margin_amount then (u, false, [])
          else
            match place_market_order u.exchange_type .buy position_size false orderOk with
            | (some _, ev) =>
              let u2 := { u with
                current_step := step
                martingale_trigger_prices := u.martingale_trigger_prices ++ [current_price]
                position_levels := u.position_levels ++
                  [⟨current_price, margin_amount, position_size, step + 1⟩] }
              let u3 := record_trade u2 (.martingaleLevel (step + 1))
                current_price position_size margin_amount 0
              (u3, true, ev ++ [.martingaleAdded (step + 1) current_price position_size])
            | (none, ev) => (u, false, ev)
      else (u, false, [])

/-- `TradingEngine.close_position`.  The freshly queried exchange position
size (`positionSizeR`) is used for the reduce-only sell; a non-positive size
logs "No position found to close" and returns failure without an order. -/
def close_position (positionSizeR : ℚ) (priceR : Option ℚ) (orderOk : Bool)
    (u : UserData) : UserData × Bool × List Event :=
  if positionSizeR ≤ 0 then (u, false, [])
  else
    match priceR with
    | none => (u, false, [])
    | some current_price =>
      if current_price = 0 then (u, false, [])
      else
        match place_market_order u.exchange_type .sell positionSizeR true orderOk with
        | (some _, ev) =>
          let total_margin := (u.position_levels.map PositionLevel.margin).sum
          let pp_mr : ℚ × ℚ :=
            match calculate_weighted_average_entry u.position_levels with
            | some weighted_avg_entry =>
              if weighted_avg_entry = 0 then (0, 0)
              else
                let profit_pct := calculate_profit_percentage current_price weighted_avg_entry
                (profit_pct, calculate_margin_return profit_pct u.leverage)
            | none => (0, 0)
          let profit_usd := total_margin * (pp_mr.2 / 100)
          let u2 := record_trade u .closeAllTp current_price positionSizeR 0 profit_usd
          let u3 := { u2 with
            cycle_count := u2.cycle_count + 1
            total_profit := u2.total_profit + pp_mr.2
            is_active := false
            entry_price := none
            current_step := 0
            position_levels := []
            martingale_trigger_prices := [] }
          (u3, true, ev ++ [.cycleCompleted pp_mr.1 profit_usd u3.cycle_count])
        | (none, ev) => (u, false, ev)

/-- `TradingEngine.emergency_close_position`.  A non-positive exchange
position size returns success immediately ("No position to close") without
touching the record; only a successfully placed sell order resets the cycle
fields and disables trading. -/
def emergency_close_position (positionSizeR : ℚ) (orderOk : Bool)
    (u : UserData) : UserData × Bool × List Event :=
  if positionSizeR ≤ 0 then (u, true, [])
  else
    match place_market_order u.exchange_type .sell positionSizeR true orderOk with
    | (some _, ev) =>
      ({ u with
          is_active := false
          trading_enabled := false
          entry_price := none
          current_step := 0
          position_levels := []
          martingale_trigger_prices := [] }, true,
        ev ++ [.emergencyClosed positionSizeR])
    | (none, ev) => (u, false, ev)

/-- One gateway response per call site of a single `process_user_trading`
pass, in source order. -/
structure PassOracle where
  refreshBalance : ℚ
  startPrice : Option ℚ
  startBalance : ℚ
  startOrderOk : Bool
  tpPrice : Option ℚ
  closePositionSize : ℚ
  closePrice : Option ℚ
  closeOrderOk : Bool
  addCheckPrice : Option ℚ
  addPrice : Option ℚ
  addBalance : ℚ
  addOrderOk : Bool
  deriving Repr

/-- `TradingEngine.process_user_trading` (the `time.sleep(30)` pause after a
successful cycle start has no state effect and is not modelled). -/
def process_user_trading (o : PassOracle) (u : UserData) :
    UserData × Bool × List Event :=
  if ¬u.setup_complete ∨ ¬u.trading_enabled then (u, true, [])
  else if u.safe_stop_requested ∧ ¬u.is_active then (u, true, [])
  else if ¬u.exchange_connected then (u, false, [])
  else
    let ub := update_balance_strategy o.refreshBalance u
    let u1 := ub.1
    if ¬u1.is_active ∧ ¬u1.safe_stop_requested ∧ ¬u1.trade_in_progress then
      let r := start_new_cycle o.startPrice o.startBalance o.startOrderOk u1
      (r.1, r.2.1, ub.2 ++ Event.startCycleInvoked :: r.2.2)
    else if u1.is_active then
      if check_take_profit o.tpPrice u1 then
        let r := close_position o.closePositionSize o.closePrice o.closeOrderOk u1
        (r.1, r.2.1, ub.2 ++ [Event.tpEvaluated true, Event.closeInvoked] ++ r.2.2)
      else if should_add_martingale o.addCheckPrice u1 then
        let r := add_martingale_level o.addPrice o.addBalance o.addOrderOk u1
        (r.1, r.2.1, ub.2 ++ [Event.tpEvaluated false, Event.addLevelInvoked] ++ r.2.2)
      else (u1, true, ub.2 ++ [Event.tpEvaluated false])
    else (u1, true, ub.2)

/-! ## src/core/user_manager.py — initial record and reachable states -/

/-- The trading-relevant part of the default record created by
`UserManager.initialize_new_user` (placeholder balance $100; flags false;
empty position bookkeeping). -/
def initUser : UserData where
  setup_complete := false
  trading_enabled := false
  safe_stop_requested := false
  trade_in_progress := false
  is_active := false
  exchange_connected := false
  exchange_type := .binance
  leverage := LEVERAGE
  take_profit_pct := TAKE_PROFIT_PCT
  base_amount := calculate_base_amount 100
  martingale_sequence := calculate_dynamic_martingale_sequence 100
  current_step := 0
  entry_price := none
  position_levels := []
  martingale_trigger_prices := []
  cycle_count := 0
  total_trades := 0
  total_profit := 0
  closed_trades := []
  current_balance := 0

/-- User states reachable from a fresh record through the trading engine's
operations, the registry's balance-driven strategy recomputation
(`UserManager.update_user_balance`), and outside mutation (setup and
telegram-handler writes) that does not touch the position bookkeeping. -/
inductive Reach : UserData → Prop where
  | init : Reach initUser
  | control {u u' : UserData} : Reach u →
      u'.is_active = u.is_active →
      u'.current_step = u.current_step →
      u'.position_levels = u.position_levels →
      u'.martingale_sequence = u.martingale_sequence →
      Reach u'
  | registryRecompute {u : UserData} (balance : ℚ) : Reach u →
      Reach { u with
        current_balance := balance
        base_amount := calculate_base_amount balance
        martingale_sequence := calculate_dynamic_martingale_sequence balance }
  | updateBalance {u : UserData} (balanceR : ℚ) : Reach u →
      Reach (update_balance_strategy balanceR u).1
  | startCycle {u : UserData} (priceR : Option ℚ) (balanceR : ℚ) (orderOk : Bool) :
      Reach u → Reach (start_new_cycle priceR balanceR orderOk u).1
  | addLevel {u : UserData} (priceR : Option ℚ) (balanceR : ℚ) (orderOk : Bool) :
      Reach u → Reach (add_martingale_level priceR balanceR orderOk u).1
  | closePos {u : UserData} (positionSizeR : ℚ) (priceR : Option ℚ) (orderOk : Bool) :
      Reach u → Reach (close_position positionSizeR priceR orderOk u).1
  | emergency {u : UserData} (positionSizeR : ℚ) (orderOk : Bool) :
      Reach u → Reach (emergency_close_position positionSizeR orderOk u).1

/-- The position-bookkeeping invariant claimed by the specification. -/
def PositionInvariant (u : UserData) : Prop :=
  u.is_active = true →
    u.current_step < u.martingale_sequence.length ∧
    u.position_levels.length = u.current_step + 1

/-- Auxiliary strengthening: every generated sequence has exactly
`MARTINGALE_LEVELS` entries. -/
def StrongInvariant (u : UserData) : Prop :=
  u.martingale_sequence.length = MARTINGALE_LEVELS ∧ PositionInvariant u

/-- A concrete user record used by witnesses and counterexamples: setup
complete, trading enabled, one open level at price 100 with margin $0.2 and
0.05 contracts (the spec's own full-cycle scenario after the first fill). -/
def sampleActiveUser : UserData where
  setup_complete := true
  trading_enabled := true
  safe_stop_requested := false
  trade_in_progress := false
  is_active := true
  exchange_connected := true
  exchange_type := .binance
  leverage := 25
  take_profit_pct := TAKE_PROFIT_PCT
  base_amount := 1/5
  martingale_sequence := calculate_dynamic_martingale_sequence 100
  current_step := 0
  entry_price := some 100
  position_levels := [⟨100, 1/5, 1/20, 1⟩]
  martingale_trigger_prices := []
  cycle_count := 0
  total_trades := 1
  total_profit := 0
  closed_trades := []
  current_balance := 100

/-! ## Theorems: rounding facts, binary64 evaluations, engine lemmas -/

theorem rne_intCast (n : ℤ) : rne (n : ℚ) = n := by
  unfold rne
  simp

theorem rne_eq_low (x : ℚ) (f : ℤ) (h1 : (f : ℚ) ≤ x) (h2 : x < (f : ℚ) + 1/2) :
    rne x = f := by
  have hf : ⌊x⌋ = f := by
    rw [Int.floor_eq_iff]
    exact ⟨h1, by linarith⟩
  unfold rne
  rw [hf, if_pos (by linarith)]

theorem rne_eq_high (x : ℚ) (f : ℤ) (h1 : (f : ℚ) + 1/2 < x) (h2 : x < (f : ℚ) + 1) :
    rne x = f + 1 := by
  have hf : ⌊x⌋ = f := by
    rw [Int.floor_eq_iff]
    exact ⟨by linarith, by linarith⟩
  unfold rne
  rw [hf, if_neg (by linarith), if_pos (by linarith)]

theorem rne_mem (x : ℚ) : rne x = ⌊x⌋ ∨ rne x = ⌊x⌋ + 1 := by
  unfold rne
  split
  · exact Or.inl rfl
  · split
    · exact Or.inr rfl
    · split
      · exact Or.inl rfl
      · exact Or.inr rfl

theorem floor_le_rne (x : ℚ) : ⌊x⌋ ≤ rne x := by
  rcases rne_mem x with h | h <;> omega

theorem rne_ge (x : ℚ) : x - 1/2 ≤ (rne x : ℚ) := by
  have hfu : x < ⌊x⌋ + 1 := Int.lt_floor_add_one x
  rcases rne_mem x with h | h <;> rw [h] <;> push_cast
  · unfold rne at h
    by_cases hc : x - ⌊x⌋ < 1/2
    · linarith
    · rw [if_neg hc] at h
      by_cases hc2 : 1/2 < x - ⌊x⌋
      · rw [if_pos hc2] at h
        omega
      · push_neg at hc hc2
        linarith
  · linarith

theorem rne_le (x : ℚ) : (rne x : ℚ) ≤ x + 1/2 := by
  have hfl : (⌊x⌋ : ℚ) ≤ x := Int.floor_le x
  rcases rne_mem x with h | h <;> rw [h] <;> push_cast
  · linarith
  · unfold rne at h
    by_cases hc : x - ⌊x⌋ < 1/2
    · rw [if_pos hc] at h
      omega
    · push_neg at hc
      linarith

theorem rne_mono {x y : ℚ} (h : x ≤ y) : rne x ≤ rne y := by
  rcases lt_or_eq_of_le (Int.floor_le_floor h) with hlt | heq
  · have h1 := rne_mem x
    have h2 := floor_le_rne y
    omega
  · -- equal floors
    by_cases hy : 1/2 < y - ⌊y⌋
    · -- rne y is the upper value, which bounds rne x from above
      have hyv : rne y = ⌊y⌋ + 1 := by
        unfold rne
        rw [if_neg (by linarith), if_pos hy]
      have h1 := rne_mem x
      omega
    · push_neg at hy
      by_cases hx : x - ⌊x⌋ < 1/2
      · -- rne x is the lower value
        have hxv : rne x = ⌊x⌋ := by
          unfold rne
          rw [if_pos hx]
        have h2 := floor_le_rne y
        omega
      · -- fractional parts of x and y are pinched between 1/2 and 1/2: x = y
        push_neg at hx
        have hfx : (⌊x⌋ : ℚ) ≤ x := Int.floor_le x
        have hxy : x = y := by
          have hcast : ((⌊x⌋ : ℚ)) = ((⌊y⌋ : ℚ)) := by exact_mod_cast heq
          linarith
        rw [hxy]

theorem pyRound_ge (n : ℕ) (q : ℚ) : q - 1 / (2 * 10 ^ n) ≤ pyRound n q := by
  unfold pyRound
  have hp : (0:ℚ) < 10 ^ n := by positivity
  rw [le_div_iff₀ hp]
  have hkey : (q - 1 / (2 * 10 ^ n)) * 10 ^ n = q * 10 ^ n - 1/2 := by
    field_simp
    ring
  rw [hkey]
  exact rne_ge (q * 10 ^ n)

theorem pyRound_le (n : ℕ) (q : ℚ) : pyRound n q ≤ q + 1 / (2 * 10 ^ n) := by
  unfold pyRound
  have hp : (0:ℚ) < 10 ^ n := by positivity
  rw [div_le_iff₀ hp]
  have hkey : (q + 1 / (2 * 10 ^ n)) * 10 ^ n = q * 10 ^ n + 1/2 := by
    field_simp
    ring
  rw [hkey]
  exact rne_le (q * 10 ^ n)

theorem pyRound_mono (n : ℕ) {q r : ℚ} (h : q ≤ r) : pyRound n q ≤ pyRound n r := by
  unfold pyRound
  have hp : (0:ℚ) < 10 ^ n := by positivity
  gcongr
  exact_mod_cast rne_mono (mul_le_mul_of_nonneg_right h (le_of_lt hp))

/-- Evaluation helper: if the scaled value is an integer, `pyRound` is exact. -/
theorem pyRound_eq_of_int (n : ℕ) (q : ℚ) (m : ℤ) (h : q * 10 ^ n = (m : ℚ)) :
    pyRound n q = (m : ℚ) / 10 ^ n := by
  unfold pyRound
  rw [h, rne_intCast]

theorem Int_log2_eq (r : ℚ) (e : ℤ) (h0 : 0 < r) (h1 : (2:ℚ) ^ e ≤ r)
    (h2 : r < (2:ℚ) ^ (e + 1)) : Int.log 2 r = e := by
  have hb : 1 < 2 := by norm_num
  have ha : e ≤ Int.log 2 r := by
    rw [← Int.zpow_le_iff_le_log hb h0]
    exact_mod_cast h1
  have hbb : Int.log 2 r < e + 1 := by
    rw [← Int.lt_zpow_iff_log_lt hb h0]
    exact_mod_cast h2
  omega

/-- Evaluation helper for `roundDouble` at a concrete positive rational:
supply the binade exponent `e` and the rounded significand `m`. -/
theorem roundDouble_eq_pos (q : ℚ) (e : ℤ) (m : ℤ) (hq : 0 < q)
    (h1 : (2:ℚ) ^ e ≤ q) (h2 : q < (2:ℚ) ^ (e + 1))
    (hm : rne (q * 2 ^ (52 - e)) = m) :
    roundDouble q = (m : ℚ) * 2 ^ (e - 52) := by
  unfold roundDouble
  rw [if_neg (ne_of_gt hq), if_pos hq, abs_of_pos hq,
    Int_log2_eq q e hq h1 h2, hm, one_mul]

theorem roundDouble_lit9889 : roundDouble (9889 / 100) = dbl9889 := by
  have hrne : rne ((9889 / 100 : ℚ) * 2 ^ ((52:ℤ) - 6)) = 6958765111729193 := by
    have hx : ((9889 / 100 : ℚ) * 2 ^ ((52:ℤ) - 6)) = 173969127793229824 / 25 := by
      norm_num
    rw [hx, rne_eq_high _ 6958765111729192 (by norm_num) (by norm_num)]
    norm_num
  have hres := roundDouble_eq_pos (9889 / 100) 6 6958765111729193
    (by norm_num) (by norm_num) (by norm_num) hrne
  rw [hres]
  unfold dbl9889
  norm_num

theorem roundDouble_lit989 : roundDouble (989 / 10) = dbl989 := by
  have hrne : rne ((989 / 10 : ℚ) * 2 ^ ((52:ℤ) - 6)) = 6959468799170970 := by
    have hx : ((989 / 10 : ℚ) * 2 ^ ((52:ℤ) - 6)) = 34797343995854848 / 5 := by
      norm_num
    rw [hx, rne_eq_high _ 6959468799170969 (by norm_num) (by norm_num)]
    norm_num
  have hres := roundDouble_eq_pos (989 / 10) 6 6959468799170970
    (by norm_num) (by norm_num) (by norm_num) hrne
  rw [hres]
  unfold dbl989
  norm_num

theorem roundDouble_lit11 : roundDouble (11 / 10) = dbl11 := by
  have hrne : rne ((11 / 10 : ℚ) * 2 ^ ((52:ℤ) - 0)) = 4953959590107546 := by
    have hx : ((11 / 10 : ℚ) * 2 ^ ((52:ℤ) - 0)) = 24769797950537728 / 5 := by
      norm_num
    rw [hx, rne_eq_high _ 4953959590107545 (by norm_num) (by norm_num)]
    norm_num
  have hres := roundDouble_eq_pos (11 / 10) 0 4953959590107546
    (by norm_num) (by norm_num) (by norm_num) hrne
  rw [hres]
  unfold dbl11
  norm_num

theorem roundDouble_ex1_sub : roundDouble (78109306037207 / 70368744177664) = 78109306037207 / 70368744177664 := by
  have hrne : rne ((78109306037207 / 70368744177664 : ℚ) * 2 ^ ((52:ℤ) - 0)) = 4998995586381248 := by
    have hx : ((78109306037207 / 70368744177664 : ℚ) * 2 ^ ((52:ℤ) - 0)) = ((4998995586381248 : ℤ) : ℚ) := by
      push_cast
      norm_num
    rw [hx, rne_intCast]
  have hres := roundDouble_eq_pos (78109306037207 / 70368744177664) 0 4998995586381248
    (by norm_num) (by norm_num) (by norm_num) hrne
  rw [hres]
  norm_num

theorem roundDouble_ex1_div : roundDouble (78109306037207 / 7036874417766400) = 6398714350567997 / 576460752303423488 := by
  have hrne : rne ((78109306037207 / 7036874417766400 : ℚ) * 2 ^ ((52:ℤ) - (-7))) = 6398714350567997 := by
    have hx : ((78109306037207 / 7036874417766400 : ℚ) * 2 ^ ((52:ℤ) - (-7))) = 159967858764199936 / 25 := by
      norm_num
    rw [hx, rne_eq_low _ 6398714350567997 (by norm_num) (by norm_num)]
  have hres := roundDouble_eq_pos (78109306037207 / 7036874417766400) (-7) 6398714350567997
    (by norm_num) (by norm_num) (by norm_num) hrne
  rw [hres]
  norm_num

theorem roundDouble_ex1_mul : roundDouble (159967858764199925 / 144115188075855872) = 78109306037207 / 70368744177664 := by
  have hrne : rne ((159967858764199925 / 144115188075855872 : ℚ) * 2 ^ ((52:ℤ) - 0)) = 4998995586381248 := by
    have hx : ((159967858764199925 / 144115188075855872 : ℚ) * 2 ^ ((52:ℤ) - 0)) = 159967858764199925 / 32 := by
      norm_num
    rw [hx, rne_eq_high _ 4998995586381247 (by norm_num) (by norm_num)]
    norm_num
  have hres := roundDouble_eq_pos (159967858764199925 / 144115188075855872) 0 4998995586381248
    (by norm_num) (by norm_num) (by norm_num) hrne
  rw [hres]
  norm_num

theorem roundDouble_ex2_sub : roundDouble (38702809297715 / 35184372088832) = 38702809297715 / 35184372088832 := by
  have hrne : rne ((38702809297715 / 35184372088832 : ℚ) * 2 ^ ((52:ℤ) - 0)) = 4953959590107520 := by
    have hx : ((38702809297715 / 35184372088832 : ℚ) * 2 ^ ((52:ℤ) - 0)) = ((4953959590107520 : ℤ) : ℚ) := by
      push_cast
      norm_num
    rw [hx, rne_intCast]
  have hres := roundDouble_eq_pos (38702809297715 / 35184372088832) 0 4953959590107520
    (by norm_num) (by norm_num) (by norm_num) hrne
  rw [hres]
  norm_num

theorem roundDouble_ex2_div : roundDouble (7740561859543 / 703687441776640) = 3170534137668813 / 288230376151711744 := by
  have hrne : rne ((7740561859543 / 703687441776640 : ℚ) * 2 ^ ((52:ℤ) - (-7))) = 6341068275337626 := by
    have hx : ((7740561859543 / 703687441776640 : ℚ) * 2 ^ ((52:ℤ) - (-7))) = 31705341376688128 / 5 := by
      norm_num
    rw [hx, rne_eq_high _ 6341068275337625 (by norm_num) (by norm_num)]
    norm_num
  have hres := roundDouble_eq_pos (7740561859543 / 703687441776640) (-7) 6341068275337626
    (by norm_num) (by norm_num) (by norm_num) hrne
  rw [hres]
  norm_num

theorem roundDouble_ex2_mul : roundDouble (79263353441720325 / 72057594037927936) = 38702809297715 / 35184372088832 := by
  have hrne : rne ((79263353441720325 / 72057594037927936 : ℚ) * 2 ^ ((52:ℤ) - 0)) = 4953959590107520 := by
    have hx : ((79263353441720325 / 72057594037927936 : ℚ) * 2 ^ ((52:ℤ) - 0)) = 79263353441720325 / 16 := by
      norm_num
    rw [hx, rne_eq_low _ 4953959590107520 (by norm_num) (by norm_num)]
  have hres := roundDouble_eq_pos (79263353441720325 / 72057594037927936) 0 4953959590107520
    (by norm_num) (by norm_num) (by norm_num) hrne
  rw [hres]
  norm_num

theorem should_add_98_89 : should_add_martingale_level dbl9889 100 dbl11 = true := by
  have h1 : fsub 100 dbl9889 = 78109306037207 / 70368744177664 := by
    unfold fsub dbl9889
    have hd : (100 : ℚ) - 6958765111729193 / 70368744177664
        = 78109306037207 / 70368744177664 := by norm_num
    rw [hd, roundDouble_ex1_sub]
  have h2 : fdiv (78109306037207 / 70368744177664) 100
      = 6398714350567997 / 576460752303423488 := by
    unfold fdiv
    have hd : (78109306037207 / 70368744177664 : ℚ) / 100
        = 78109306037207 / 7036874417766400 := by norm_num
    rw [hd, roundDouble_ex1_div]
  have h3 : fmul (6398714350567997 / 576460752303423488) 100
      = 78109306037207 / 70368744177664 := by
    unfold fmul
    have hd : (6398714350567997 / 576460752303423488 : ℚ) * 100
        = 159967858764199925 / 144115188075855872 := by norm_num
    rw [hd, roundDouble_ex1_mul]
  unfold should_add_martingale_level
  rw [if_neg (by norm_num), h1, h2, h3, if_pos]
  unfold dbl11
  norm_num

theorem should_add_98_9 : should_add_martingale_level dbl989 100 dbl11 = false := by
  have h1 : fsub 100 dbl989 = 38702809297715 / 35184372088832 := by
    unfold fsub dbl989
    have hd : (100 : ℚ) - 6959468799170970 / 70368744177664
        = 38702809297715 / 35184372088832 := by norm_num
    rw [hd, roundDouble_ex2_sub]
  have h2 : fdiv (38702809297715 / 35184372088832) 100
      = 3170534137668813 / 288230376151711744 := by
    unfold fdiv
    have hd : (38702809297715 / 35184372088832 : ℚ) / 100
        = 7740561859543 / 703687441776640 := by norm_num
    rw [hd, roundDouble_ex2_div]
  have h3 : fmul (3170534137668813 / 288230376151711744) 100
      = 38702809297715 / 35184372088832 := by
    unfold fmul
    have hd : (3170534137668813 / 288230376151711744 : ℚ) * 100
        = 79263353441720325 / 72057594037927936 := by norm_num
    rw [hd, roundDouble_ex2_mul]
  unfold should_add_martingale_level
  rw [if_neg (by norm_num), h1, h2, h3, if_neg]
  unfold dbl11
  norm_num

theorem martingaleSeqGo_length (n : ℕ) (c : ℚ) : (martingaleSeqGo n c).length = n := by
  induction n generalizing c with
  | zero => rfl
  | succ k ih => simp [martingaleSeqGo, ih]

theorem martingaleSeqGo_get (n : ℕ) (c : ℚ) (i : ℕ) (h : i < n) :
    (martingaleSeqGo n c).get ⟨i, by rw [martingaleSeqGo_length]; exact h⟩
      = pyRound 4 (c * MARTINGALE_MULTIPLIER ^ i) := by
  induction n generalizing c i with
  | zero => omega
  | succ k ih =>
    cases i with
    | zero => simp [martingaleSeqGo]
    | succ j =>
      have hj : j < k := by omega
      simp only [martingaleSeqGo, List.get_cons_succ]
      rw [ih (c * MARTINGALE_MULTIPLIER) j hj]
      ring_nf

theorem get_martingale_sequence_length (b : ℚ) :
    (get_martingale_sequence b).length = MARTINGALE_LEVELS :=
  martingaleSeqGo_length _ _

theorem calculate_dynamic_martingale_sequence_length (b : ℚ) :
    (calculate_dynamic_martingale_sequence b).length = MARTINGALE_LEVELS :=
  martingaleSeqGo_length _ _

theorem record_trade_is_active (u : UserData) (t : TradeType) (p a m pr : ℚ) :
    (record_trade u t p a m pr).is_active = u.is_active := by
  unfold record_trade
  split <;> split <;> rfl

theorem record_trade_current_step (u : UserData) (t : TradeType) (p a m pr : ℚ) :
    (record_trade u t p a m pr).current_step = u.current_step := by
  unfold record_trade
  split <;> split <;> rfl

theorem record_trade_position_levels (u : UserData) (t : TradeType) (p a m pr : ℚ) :
    (record_trade u t p a m pr).position_levels = u.position_levels := by
  unfold record_trade
  split <;> split <;> rfl

theorem record_trade_martingale_sequence (u : UserData) (t : TradeType) (p a m pr : ℚ) :
    (record_trade u t p a m pr).martingale_sequence = u.martingale_sequence := by
  unfold record_trade
  split <;> split <;> rfl

theorem record_trade_cycle_count (u : UserData) (t : TradeType) (p a m pr : ℚ) :
    (record_trade u t p a m pr).cycle_count = u.cycle_count := by
  unfold record_trade
  split <;> split <;> rfl

theorem record_trade_total_profit (u : UserData) (t : TradeType) (p a m pr : ℚ) :
    (record_trade u t p a m pr).total_profit = u.total_profit := by
  unfold record_trade
  split <;> split <;> rfl

theorem record_trade_trading_enabled (u : UserData) (t : TradeType) (p a m pr : ℚ) :
    (record_trade u t p a m pr).trading_enabled = u.trading_enabled := by
  unfold record_trade
  split <;> split <;> rfl

theorem record_trade_closed_trades_closing (u : UserData) (p a m pr : ℚ) :
    (record_trade u .closeAllTp p a m pr).closed_trades
      = u.closed_trades ++ [⟨none, .closeAllTp, p, a, m, pr, u.cycle_count + 1⟩] := by
  unfold record_trade
  simp [TradeType.isOpening, TradeType.isClosing]

theorem update_balance_strategy_inv (b : ℚ) (u : UserData)
    (h : StrongInvariant u) : StrongInvariant (update_balance_strategy b u).1 := by
  obtain ⟨hlen, hpos⟩ := h
  unfold update_balance_strategy
  dsimp only
  split
  · refine ⟨calculate_dynamic_martingale_sequence_length b, ?_⟩
    intro ha
    simp only at ha
    obtain ⟨h1, h2⟩ := hpos ha
    refine ⟨?_, h2⟩
    simp only [calculate_dynamic_martingale_sequence_length]
    omega
  · exact ⟨hlen, hpos⟩

theorem start_new_cycle_inv (p : Option ℚ) (b : ℚ) (ok : Bool) (u : UserData)
    (h : StrongInvariant u) : StrongInvariant (start_new_cycle p b ok u).1 := by
  obtain ⟨hlen, hpos⟩ := h
  unfold start_new_cycle
  dsimp only
  split
  · exact ⟨hlen, hpos⟩
  · split
    · exact ⟨hlen, hpos⟩
    · split
      · exact ⟨hlen, hpos⟩
      · split
        · exact ⟨hlen, hpos⟩
        · split
          · exact ⟨hlen, hpos⟩
          · split
            · exact ⟨hlen, hpos⟩
            · split
              · exact ⟨hlen, hpos⟩
              · split
                · -- order accepted: the new active state
                  refine ⟨?_, ?_⟩
                  · simpa [record_trade_martingale_sequence] using hlen
                  · intro _
                    refine ⟨?_, ?_⟩
                    · simp only [record_trade_martingale_sequence,
                        record_trade_current_step]
                      simp only [hlen]
                      norm_num [MARTINGALE_LEVELS]
                    · simp [record_trade_position_levels,
                        record_trade_current_step]
                · exact ⟨hlen, hpos⟩

theorem add_martingale_level_inv (p : Option ℚ) (b : ℚ) (ok : Bool)
    (u : UserData) (h : StrongInvariant u) :
    StrongInvariant (add_martingale_level p b ok u).1 := by
  obtain ⟨hlen, hpos⟩ := h
  unfold add_martingale_level
  dsimp only
  split
  · exact ⟨hlen, hpos⟩
  · split
    · exact ⟨hlen, hpos⟩
    · split
      · rename_i hstep
        split
        · exact ⟨hlen, hpos⟩
        · split
          · exact ⟨hlen, hpos⟩
          · split
            · -- order accepted: level appended, step advanced
              refine ⟨?_, ?_⟩
              · simpa [record_trade_martingale_sequence] using hlen
              · intro ha
                simp only [record_trade_is_active] at ha
                obtain ⟨h1, h2⟩ := hpos ha
                refine ⟨?_, ?_⟩
                · simpa [record_trade_martingale_sequence,
                    record_trade_current_step] using hstep
                · simp only [record_trade_position_levels,
                    record_trade_current_step]
                  simp [h2]
            · exact ⟨hlen, hpos⟩
      · exact ⟨hlen, hpos⟩

theorem close_position_inv (s : ℚ) (p : Option ℚ) (ok : Bool) (u : UserData)
    (h : StrongInvariant u) : StrongInvariant (close_position s p ok u).1 := by
  obtain ⟨hlen, hpos⟩ := h
  unfold close_position
  dsimp only
  split
  · exact ⟨hlen, hpos⟩
  · split
    · exact ⟨hlen, hpos⟩
    · split
      · exact ⟨hlen, hpos⟩
      · split
        · -- order accepted: reset to idle
          refine ⟨?_, ?_⟩
          · simpa [record_trade_martingale_sequence] using hlen
          · intro ha
            simp at ha
        · exact ⟨hlen, hpos⟩

theorem emergency_close_position_inv (s : ℚ) (ok : Bool) (u : UserData)
    (h : StrongInvariant u) :
    StrongInvariant (emergency_close_position s ok u).1 := by
  obtain ⟨hlen, hpos⟩ := h
  unfold emergency_close_position
  split
  · exact ⟨hlen, hpos⟩
  · split
    · refine ⟨hlen, ?_⟩
      intro ha
      simp at ha
    · exact ⟨hlen, hpos⟩

theorem reach_strong_invariant {u : UserData} (h : Reach u) : StrongInvariant u := by
  induction h with
  | init =>
    refine ⟨calculate_dynamic_martingale_sequence_length 100, ?_⟩
    intro ha
    simp [initUser] at ha
  | control hr ha hs hp hm ih =>
    obtain ⟨hlen, hpos⟩ := ih
    refine ⟨by rw [hm]; exact hlen, ?_⟩
    intro hact
    rw [ha] at hact
    obtain ⟨h1, h2⟩ := hpos hact
    rw [hs, hp, hm]
    exact ⟨h1, h2⟩
  | registryRecompute b hr ih =>
    obtain ⟨hlen, hpos⟩ := ih
    refine ⟨calculate_dynamic_martingale_sequence_length b, ?_⟩
    intro ha
    simp only at ha
    obtain ⟨h1, h2⟩ := hpos ha
    refine ⟨?_, h2⟩
    simp only [calculate_dynamic_martingale_sequence_length]
    omega
  | updateBalance b hr ih => exact update_balance_strategy_inv b _ ih
  | startCycle p b ok hr ih => exact start_new_cycle_inv p b ok _ ih
  | addLevel p b ok hr ih => exact add_martingale_level_inv p b ok _ ih
  | closePos s p ok hr ih => exact close_position_inv s p ok _ ih
  | emergency s ok hr ih => exact emergency_close_position_inv s ok _ ih

theorem itrunc_sample : itrunc ((1/20 : ℚ) * 10 ^ 6) = 50000 := by
  unfold itrunc
  rw [if_pos (by norm_num)]
  have harg : (1/20 : ℚ) * 10 ^ 6 = ((50000:ℤ) : ℚ) := by
    push_cast
    norm_num
  rw [harg, Int.floor_intCast]

theorem order_sample :
    place_market_order ExchangeType.binance Side.buy (1/20) false true
      = (some ⟨Side.buy, 1/20, false⟩,
         [Event.orderSubmitted Side.buy (1/20) false]) := by
  unfold place_market_order round_amount
  dsimp only
  rw [itrunc_sample]
  norm_num

theorem seq100_head :
    calculate_dynamic_martingale_sequence 100
      = (1/5 : ℚ) :: martingaleSeqGo 10 ((1/5) * MARTINGALE_MULTIPLIER) := by
  unfold calculate_dynamic_martingale_sequence get_martingale_sequence
  have hbase : calculate_base_amount 100 = 1/5 := by
    unfold calculate_base_amount BALANCE_PERCENTAGE
    rw [pyRound_eq_of_int 4 _ 2000 (by norm_num)]
    norm_num
  rw [hbase]
  show martingaleSeqGo 11 (1/5) = _
  rw [show (11:ℕ) = 10 + 1 from rfl, martingaleSeqGo]
  rw [pyRound_eq_of_int 4 _ 2000 (by norm_num)]
  norm_num

theorem size_sample : calculate_position_size (1/5) 25 100 = some (1/20) := by
  unfold calculate_position_size
  rw [if_neg (by norm_num)]
  have harg : (1/5 : ℚ) * ((25:ℤ) : ℚ) / 100 = 1/20 := by
    push_cast
    norm_num
  rw [harg, pyRound_eq_of_int 6 _ 50000 (by norm_num)]
  norm_num

theorem start_on_initUser :
    (start_new_cycle (some 100) 100 true initUser).1.is_active = true := by
  unfold start_new_cycle initUser
  dsimp only
  rw [seq100_head]
  simp only [validate_trade_parameters, LEVERAGE, MIN_BALANCE, size_sample, order_sample]
  norm_num [record_trade_is_active]

/-! ## Claim theorems -/

/-- C1: the claim says `calculate_position_size` is total and returns the
sentinel 0 whenever `price ≤ 0`.  The source has no price guard: at
`price = 0` the division raises `ZeroDivisionError` (modelled `none`), and at
`price < 0` it returns a negative size, not 0. -/
theorem C1_position_size_not_total_at_nonpositive_price :
    calculate_position_size (1/5) 25 0 = none ∧
    calculate_position_size (1/5) 25 (-100) = some (-(1/20)) ∧
    some (-(1/20)) ≠ some (0 : ℚ) := by
  refine ⟨?_, ?_, by norm_num⟩
  · unfold calculate_position_size
    simp
  · unfold calculate_position_size
    rw [if_neg (by norm_num)]
    have harg : (1/5 : ℚ) * ((25:ℤ) : ℚ) / (-100) = -1/20 := by
      push_cast
      norm_num
    rw [harg, pyRound_eq_of_int 6 _ (-50000) (by norm_num)]
    norm_num

/-- C2: with the exchange reporting no open position, the claim says
`emergency_close_position` returns vacuous success, places no order, and sets
`trading_enabled` to false.  The source returns `True` from the
`actual_position_size <= 0` branch without touching the record, so
`trading_enabled` stays true (it is only disabled after an actually executed
close); the success and no-order parts hold. -/
theorem C2_emergency_close_no_position_keeps_trading_enabled :
    emergency_close_position 0 true sampleActiveUser
      = (sampleActiveUser, true, []) ∧
    sampleActiveUser.trading_enabled = true ∧
    (emergency_close_position 0 true sampleActiveUser).1.trading_enabled = true := by
  refine ⟨?_, rfl, ?_⟩ <;>
    simp [emergency_close_position, sampleActiveUser]

/-- C4: in every state reachable through the trading operations, while
`is_active` is true the current step indexes into `martingale_sequence` and
`position_levels` holds exactly `current_step + 1` entries. -/
theorem C4_reachable_position_invariant (u : UserData) (h : Reach u)
    (ha : u.is_active = true) :
    u.current_step < u.martingale_sequence.length ∧
    u.position_levels.length = u.current_step + 1 :=
  (reach_strong_invariant h).2 ha

theorem C4_reachable_position_invariant_witness :
    (start_new_cycle (some 100) 100 true initUser).1.is_active = true ∧
    ((start_new_cycle (some 100) 100 true initUser).1.current_step
        < (start_new_cycle (some 100) 100 true initUser).1.martingale_sequence.length ∧
      (start_new_cycle (some 100) 100 true initUser).1.position_levels.length
        = (start_new_cycle (some 100) 100 true initUser).1.current_step + 1) :=
  ⟨start_on_initUser,
   C4_reachable_position_invariant _
     (Reach.startCycle (some 100) 100 true Reach.init) start_on_initUser⟩

/-- C5: `add_martingale_level` is atomic — on failure (`price` unavailable,
insufficient balance, rejected order, or an out-of-range step) the step, the
level list and the trigger list are exactly as before; on success exactly one
level and one trigger price are appended and the step advances by one. -/
theorem C5_add_level_atomic (p : Option ℚ) (b : ℚ) (ok : Bool) (u : UserData)
    (_hactive : u.is_active = true) :
    ((add_martingale_level p b ok u).2.1 = false →
      (add_martingale_level p b ok u).1.current_step = u.current_step ∧
      (add_martingale_level p b ok u).1.position_levels = u.position_levels ∧
      (add_martingale_level p b ok u).1.martingale_trigger_prices
        = u.martingale_trigger_prices) ∧
    ((add_martingale_level p b ok u).2.1 = true →
      (add_martingale_level p b ok u).1.current_step = u.current_step + 1 ∧
      (add_martingale_level p b ok u).1.position_levels.length
        = u.position_levels.length + 1 ∧
      (add_martingale_level p b ok u).1.position_levels.take u.position_levels.length
        = u.position_levels ∧
      (add_martingale_level p b ok u).1.martingale_trigger_prices.length
        = u.martingale_trigger_prices.length + 1 ∧
      (add_martingale_level p b ok u).1.martingale_trigger_prices.take
          u.martingale_trigger_prices.length
        = u.martingale_trigger_prices) := by
  unfold add_martingale_level
  dsimp only
  split
  · exact ⟨fun _ => ⟨rfl, rfl, rfl⟩, fun hfalse => by simp at hfalse⟩
  · split
    · exact ⟨fun _ => ⟨rfl, rfl, rfl⟩, fun hfalse => by simp at hfalse⟩
    · split
      · split
        · exact ⟨fun _ => ⟨rfl, rfl, rfl⟩, fun hfalse => by simp at hfalse⟩
        · split
          · exact ⟨fun _ => ⟨rfl, rfl, rfl⟩, fun hfalse => by simp at hfalse⟩
          · split
            · refine ⟨fun hfalse => by simp at hfalse, fun _ => ?_⟩
              refine ⟨?_, ?_, ?_, ?_, ?_⟩
              · simp [record_trade_current_step]
              · simp [record_trade_position_levels]
              · simp [record_trade_position_levels, List.take_left]
              · unfold record_trade
                split <;> split <;> simp
              · unfold record_trade
                split <;> split <;> simp [List.take_left]
            · exact ⟨fun _ => ⟨rfl, rfl, rfl⟩, fun hfalse => by simp at hfalse⟩
      · exact ⟨fun _ => ⟨rfl, rfl, rfl⟩, fun hfalse => by simp at hfalse⟩

theorem C5_add_level_atomic_witness :
    sampleActiveUser.is_active = true ∧
    (add_martingale_level none 0 true sampleActiveUser).1.current_step
      = sampleActiveUser.current_step :=
  ⟨rfl, ((C5_add_level_atomic none 0 true sampleActiveUser rfl).1 rfl).1⟩

theorem calculate_base_amount_200 : calculate_base_amount 200 = 2/5 := by
  unfold calculate_base_amount BALANCE_PERCENTAGE
  rw [pyRound_eq_of_int 4 _ 4000 (by norm_num)]
  norm_num

theorem seq200_getD0 :
    (calculate_dynamic_martingale_sequence 200).getD 0 9999 = 2/5 := by
  unfold calculate_dynamic_martingale_sequence get_martingale_sequence
  rw [calculate_base_amount_200]
  rw [show MARTINGALE_LEVELS = 10 + 1 from rfl, martingaleSeqGo]
  show pyRound 4 (2/5) = 2/5
  rw [pyRound_eq_of_int 4 _ 4000 (by norm_num)]
  norm_num

theorem seq100_getD0 :
    (calculate_dynamic_martingale_sequence 100).getD 0 9999 = 1/5 := by
  rw [seq100_head]
  rfl

/-- C3 counterexample.  (a) With last balance $100, a refreshed balance of
$101 is a move of exactly 1%, which the claim says triggers recomputation;
the source condition is strict (`> 0.01`) and leaves the record unchanged.
(b) With the user active at step 0, a refresh to $200 recomputes and replaces
the already-used level 0 (margin $0.2 becomes $0.4), so recomputation does
not preserve used levels. -/
theorem C3_counterexample :
    ((update_balance_strategy 101 sampleActiveUser).1 = sampleActiveUser ∧
      1/100 ≤ |(101:ℚ) - sampleActiveUser.current_balance|
        / sampleActiveUser.current_balance) ∧
    (sampleActiveUser.is_active = true ∧
      sampleActiveUser.current_step = 0 ∧
      sampleActiveUser.martingale_sequence.getD 0 9999 = 1/5 ∧
      (update_balance_strategy 200 sampleActiveUser).1.martingale_sequence.getD 0 9999
        = 2/5) := by
  refine ⟨⟨?_, by norm_num [sampleActiveUser]⟩, rfl, rfl, ?_, ?_⟩
  · unfold update_balance_strategy sampleActiveUser
    dsimp only
    rw [if_neg (by norm_num)]
  · exact seq100_getD0
  · unfold update_balance_strategy
    dsimp only
    rw [if_pos (by norm_num [sampleActiveUser])]
    exact seq200_getD0

/-- C3 amended: `base_amount` and `martingale_sequence` are recomputed exactly
when the refreshed balance differs from the last recorded balance by strictly
more than 1% of `max(last_balance, 1)`; a recompute regenerates the whole
sequence from the new balance (used levels are not preserved). -/
theorem C3_update_balance_strategy_exact (b : ℚ) (u : UserData) :
    ((update_balance_strategy b u).1 ≠ u ↔
      1/100 < |b - u.current_balance| / max u.current_balance 1) ∧
    (1/100 < |b - u.current_balance| / max u.current_balance 1 →
      (update_balance_strategy b u).1.martingale_sequence
        = calculate_dynamic_martingale_sequence b ∧
      (update_balance_strategy b u).1.base_amount = calculate_base_amount b ∧
      (update_balance_strategy b u).1.current_balance = b) := by
  constructor
  · constructor
    · intro hne
      by_contra hcond
      apply hne
      unfold update_balance_strategy
      dsimp only
      rw [if_neg hcond]
    · intro hcond
      unfold update_balance_strategy
      dsimp only
      rw [if_pos hcond]
      intro heq
      have hb : b = u.current_balance := congrArg UserData.current_balance heq
      rw [hb, sub_self, abs_zero, zero_div] at hcond
      norm_num at hcond
  · intro hcond
    unfold update_balance_strategy
    dsimp only
    rw [if_pos hcond]
    exact ⟨rfl, rfl, rfl⟩

theorem C3_update_balance_strategy_exact_witness :
    1/100 < |(200:ℚ) - sampleActiveUser.current_balance|
      / max sampleActiveUser.current_balance 1 ∧
    (update_balance_strategy 200 sampleActiveUser).1.martingale_sequence
      = calculate_dynamic_martingale_sequence 200 :=
  ⟨by norm_num [sampleActiveUser],
   ((C3_update_balance_strategy_exact 200 sampleActiveUser).2
     (by norm_num [sampleActiveUser])).1⟩

theorem pyRound_strict (n : ℕ) {q r : ℚ} (h : q + 1/10^n < r) :
    pyRound n q < pyRound n r := by
  have h1 := pyRound_le n q
  have h2 := pyRound_ge n r
  have hp : (0:ℚ) < 10 ^ n := by positivity
  have hhalf : (1:ℚ) / (2 * 10 ^ n) = (1 / 10 ^ n) / 2 := by
    rw [div_div]
    congr 1
    ring
  linarith

theorem get_martingale_sequence_getD (b : ℚ) (i : ℕ) (h : i < MARTINGALE_LEVELS) :
    (get_martingale_sequence b).getD i 0
      = pyRound 4 (b * MARTINGALE_MULTIPLIER ^ i) := by
  unfold get_martingale_sequence
  rw [List.getD_eq_get _ _ (by rw [martingaleSeqGo_length]; exact h)]
  exact martingaleSeqGo_get MARTINGALE_LEVELS b i h

/-- C6 counterexample: at `base_amount = 0.00001` the first two generated
entries both round to 0, so the sequence is not strictly increasing (the
claim asserts strict increase for every positive base amount). -/
theorem C6_counterexample :
    0 < (1/100000 : ℚ) ∧
    (get_martingale_sequence (1/100000)).getD 0 9999 = 0 ∧
    (get_martingale_sequence (1/100000)).getD 1 9999 = 0 := by
  refine ⟨by norm_num, ?_, ?_⟩
  · unfold get_martingale_sequence
    rw [show MARTINGALE_LEVELS = 10 + 1 from rfl, martingaleSeqGo]
    show pyRound 4 (1/100000) = 0
    unfold pyRound
    rw [show ((1:ℚ)/100000) * 10 ^ 4 = 1/10 by norm_num,
      rne_eq_low _ 0 (by norm_num) (by norm_num)]
    norm_num
  · unfold get_martingale_sequence
    rw [show MARTINGALE_LEVELS = 10 + 1 from rfl, martingaleSeqGo,
      show (10:ℕ) = 9 + 1 from rfl, martingaleSeqGo]
    show pyRound 4 ((1/100000) * MARTINGALE_MULTIPLIER) = 0
    unfold pyRound MARTINGALE_MULTIPLIER
    rw [show ((1:ℚ)/100000) * (27/20) * 10 ^ 4 = 27/200 by norm_num,
      rne_eq_low _ 0 (by norm_num) (by norm_num)]
    norm_num

/-- C6 amended: for every positive base amount the generated sequence has
exactly `MARTINGALE_LEVELS` entries with entry `i` equal to
`round(base × multiplier^i, 4)`, and the sequence is nondecreasing; it is
strictly increasing whenever `base_amount ≥ 0.0003` (for smaller bases the
4-decimal rounding can collapse neighbouring entries, as the counterexample
shows). -/
theorem C6_martingale_sequence_properties (base_amount : ℚ)
    (hb : 0 < base_amount) :
    (get_martingale_sequence base_amount).length = MARTINGALE_LEVELS ∧
    (∀ i : ℕ, i < MARTINGALE_LEVELS →
      (get_martingale_sequence base_amount).getD i 0
        = pyRound 4 (base_amount * MARTINGALE_MULTIPLIER ^ i)) ∧
    (∀ i j : ℕ, i ≤ j → j < MARTINGALE_LEVELS →
      (get_martingale_sequence base_amount).getD i 0
        ≤ (get_martingale_sequence base_amount).getD j 0) ∧
    (3/10000 ≤ base_amount →
      List.Chain' (· < ·) (get_martingale_sequence base_amount)) := by
  refine ⟨get_martingale_sequence_length base_amount,
    fun i h => get_martingale_sequence_getD base_amount i h, ?_, ?_⟩
  · intro i j hij hj
    rw [get_martingale_sequence_getD base_amount i (lt_of_le_of_lt hij hj),
      get_martingale_sequence_getD base_amount j hj]
    apply pyRound_mono
    apply mul_le_mul_of_nonneg_left _ hb.le
    exact pow_le_pow_right₀ (by norm_num [MARTINGALE_MULTIPLIER]) hij
  · intro hb3
    rw [List.chain'_iff_get]
    intro i hi
    rw [get_martingale_sequence_length] at hi
    have hi1 : i + 1 < MARTINGALE_LEVELS := by
      unfold MARTINGALE_LEVELS at hi ⊢
      omega
    have hgd : ∀ k : ℕ, ∀ hk : k < MARTINGALE_LEVELS,
        (get_martingale_sequence base_amount).get
            ⟨k, by rw [get_martingale_sequence_length]; exact hk⟩
          = pyRound 4 (base_amount * MARTINGALE_MULTIPLIER ^ k) := by
      intro k hk
      rw [← List.getD_eq_get _ 0]
      exact get_martingale_sequence_getD base_amount k hk
    rw [hgd i (by omega), hgd (i+1) hi1]
    have hM : (1:ℚ) ≤ MARTINGALE_MULTIPLIER ^ i :=
      one_le_pow₀ (by norm_num [MARTINGALE_MULTIPLIER])
    have h1 : base_amount ≤ base_amount * MARTINGALE_MULTIPLIER ^ i := by
      nlinarith
    apply pyRound_strict
    rw [pow_succ MARTINGALE_MULTIPLIER i]
    unfold MARTINGALE_MULTIPLIER at *
    nlinarith [h1, hb3, hM, hb]

theorem C6_martingale_sequence_properties_witness :
    0 < (1:ℚ) ∧ (get_martingale_sequence 1).length = MARTINGALE_LEVELS :=
  ⟨by norm_num, (C6_martingale_sequence_properties 1 (by norm_num)).1⟩

/-- C7: `should_add_level` is true iff the (binary64-evaluated) percentage
drop reaches the trigger, and at the spec's boundary examples the binary64
round-off gives `true` at 98.89 and `false` at 98.9 (the exact drop there is
1.1 = trigger, but the double computation yields 1.0999999999999943 < 1.1). -/
theorem C7_should_add_level_iff_and_examples :
    (∀ current_price reference_price drop_trigger : ℚ, 0 < reference_price →
      (should_add_martingale_level current_price reference_price drop_trigger = true ↔
        drop_trigger ≤
          fmul (fdiv (fsub reference_price current_price) reference_price) 100)) ∧
    should_add_martingale_level dbl9889 100 dbl11 = true ∧
    should_add_martingale_level dbl989 100 dbl11 = false := by
  refine ⟨?_, should_add_98_89, should_add_98_9⟩
  intro c r t hr
  unfold should_add_martingale_level
  rw [if_neg (by push_neg; exact ⟨ne_of_gt hr, hr⟩)]
  split
  · simp [*]
  · simp [*]

theorem C7_should_add_level_iff_and_examples_witness :
    0 < (100:ℚ) ∧
    (should_add_martingale_level dbl9889 100 dbl11 = true ↔
      dbl11 ≤ fmul (fdiv (fsub 100 dbl9889) 100) 100) :=
  ⟨by norm_num,
   C7_should_add_level_iff_and_examples.1 dbl9889 100 dbl11 (by norm_num)⟩

theorem place_market_order_events (et : ExchangeType) (sd : Side) (a : ℚ)
    (ro ok : Bool) (sd2 : Side) (amt2 : ℚ) (ro2 : Bool)
    (h : Event.orderSubmitted sd2 amt2 ro2 ∈ (place_market_order et sd a ro ok).2) :
    sd2 = sd ∧ amt2 = round_amount et a ∧ ro2 = ro := by
  unfold place_market_order at h
  dsimp only at h
  split at h
  · simp at h
  · split at h
    · simp only [List.mem_singleton, Event.orderSubmitted.injEq] at h
      exact h
    · simp only [List.mem_singleton, Event.orderSubmitted.injEq] at h
      exact h

/-- C8: the reduce-only sell amount is the freshly queried exchange position
size (after exchange precision rounding), never the locally tracked sum; and
a non-positive exchange-reported size makes `close_position` report failure
("no position to close") without submitting any order, whatever the local
`position_levels` contain. -/
theorem C8_close_uses_exchange_size (s p : ℚ) (ok : Bool) (u : UserData) :
    (s ≤ 0 → close_position s (some p) ok u = (u, false, [])) ∧
    (∀ sd : Side, ∀ amt : ℚ, ∀ ro : Bool,
      Event.orderSubmitted sd amt ro ∈ (close_position s (some p) ok u).2.2 →
      sd = Side.sell ∧ amt = round_amount u.exchange_type s ∧ ro = true) := by
  constructor
  · intro hs
    unfold close_position
    dsimp only
    rw [if_pos hs]
  · intro sd amt ro hmem
    unfold close_position at hmem
    dsimp only at hmem
    split at hmem
    · simp at hmem
    · split at hmem
      · simp at hmem
      · split at hmem
        · rename_i val ev heq
          rw [List.mem_append] at hmem
          rcases hmem with hmem | hmem
          · have hev : (place_market_order u.exchange_type Side.sell s true ok).2 = ev := by
              rw [heq]
            exact place_market_order_events u.exchange_type Side.sell s true ok
              sd amt ro (by rw [hev]; exact hmem)
          · simp at hmem
        · rename_i ev heq
          have hev : (place_market_order u.exchange_type Side.sell s true ok).2 = ev := by
            rw [heq]
          exact place_market_order_events u.exchange_type Side.sell s true ok
            sd amt ro (by rw [hev]; exact hmem)

theorem C8_close_uses_exchange_size_witness :
    (0:ℚ) ≤ 0 ∧
    close_position 0 (some 101) true sampleActiveUser = (sampleActiveUser, false, []) ∧
    (sampleActiveUser.position_levels.map PositionLevel.margin).sum = 1/5 :=
  ⟨le_refl 0,
   (C8_close_uses_exchange_size 0 101 true sampleActiveUser).1 (le_refl 0),
   by simp [sampleActiveUser]⟩

/-- C10: on a successful take-profit close, `total_profit` accumulates
`margin_return = profit_pct × leverage` — a percentage figure — while the
dollar amount `profit_usd = total_margin × margin_return / 100` is what goes
into the appended closing trade record and the `cycle_completed` event. -/
theorem C10_close_accumulates_percentage_points (s p w : ℚ) (u : UserData)
    (hw : calculate_weighted_average_entry u.position_levels = some w)
    (hw0 : 0 < w) (hs : 0 < s) (hp0 : p ≠ 0)
    (hamt : 0 < round_amount u.exchange_type s) :
    (close_position s (some p) true u).1.total_profit
      = u.total_profit + ((p - w) / w * 100) * u.leverage ∧
    (close_position s (some p) true u).1.closed_trades
      = u.closed_trades ++
        [⟨none, .closeAllTp, p, s, 0,
          (u.position_levels.map PositionLevel.margin).sum
            * (((p - w) / w * 100) * u.leverage / 100), u.cycle_count + 1⟩] ∧
    Event.cycleCompleted ((p - w) / w * 100)
        ((u.position_levels.map PositionLevel.margin).sum
          * (((p - w) / w * 100) * u.leverage / 100))
        (u.cycle_count + 1)
      ∈ (close_position s (some p) true u).2.2 := by
  have hpp : calculate_profit_percentage p w = (p - w) / w * 100 := by
    unfold calculate_profit_percentage
    rw [if_neg (not_le.mpr hw0)]
  have horder : place_market_order u.exchange_type Side.sell s true true
      = (some ⟨Side.sell, round_amount u.exchange_type s, true⟩,
         [Event.orderSubmitted Side.sell (round_amount u.exchange_type s) true]) := by
    unfold place_market_order
    dsimp only
    rw [if_neg (not_le.mpr hamt)]
    simp
  unfold close_position
  dsimp only
  rw [if_neg (not_le.mpr hs), if_neg hp0, horder]
  dsimp only
  rw [hw]
  dsimp only
  rw [if_neg (ne_of_gt hw0)]
  unfold calculate_margin_return
  refine ⟨?_, ?_, ?_⟩
  · show (record_trade u .closeAllTp p s 0 _).total_profit + _ = _
    rw [record_trade_total_profit, hpp]
  · show (record_trade u .closeAllTp p s 0 _).closed_trades = _
    rw [record_trade_closed_trades_closing, hpp]
  · rw [record_trade_cycle_count, hpp]
    simp

theorem C10_close_accumulates_percentage_points_witness :
    calculate_weighted_average_entry sampleActiveUser.position_levels = some 100 ∧
    (0:ℚ) < 100 ∧ (0:ℚ) < 1/20 ∧ (101:ℚ) ≠ 0 ∧
    0 < round_amount sampleActiveUser.exchange_type (1/20) ∧
    (close_position (1/20) (some 101) true sampleActiveUser).1.total_profit
      = sampleActiveUser.total_profit
        + (((101:ℚ) - 100) / 100 * 100) * sampleActiveUser.leverage := by
  have hw : calculate_weighted_average_entry sampleActiveUser.position_levels
      = some 100 := by
    unfold calculate_weighted_average_entry sampleActiveUser
    norm_num
  have hamt : 0 < round_amount sampleActiveUser.exchange_type (1/20) := by
    show 0 < round_amount ExchangeType.binance (1/20)
    unfold round_amount
    dsimp only
    rw [itrunc_sample]
    norm_num
  exact ⟨hw, by norm_num, by norm_num, by norm_num, hamt,
    (C10_close_accumulates_percentage_points (1/20) 101 100 sampleActiveUser hw
      (by norm_num) (by norm_num) (by norm_num) hamt).1⟩

theorem update_balance_strategy_is_active (b : ℚ) (u : UserData) :
    (update_balance_strategy b u).1.is_active = u.is_active := by
  unfold update_balance_strategy
  dsimp only
  split <;> rfl

theorem update_balance_strategy_safe_stop (b : ℚ) (u : UserData) :
    (update_balance_strategy b u).1.safe_stop_requested = u.safe_stop_requested := by
  unfold update_balance_strategy
  dsimp only
  split <;> rfl

theorem startCycleInvoked_not_in_place (et : ExchangeType) (sd : Side) (a : ℚ)
    (ro ok : Bool) :
    Event.startCycleInvoked ∉ (place_market_order et sd a ro ok).2 := by
  unfold place_market_order
  dsimp only
  split
  · simp
  · split <;> simp

theorem startCycleInvoked_not_in_update (b : ℚ) (u : UserData) :
    Event.startCycleInvoked ∉ (update_balance_strategy b u).2 := by
  unfold update_balance_strategy
  dsimp only
  split <;> simp

theorem startCycleInvoked_not_in_close (s : ℚ) (p : Option ℚ) (ok : Bool)
    (u : UserData) :
    Event.startCycleInvoked ∉ (close_position s p ok u).2.2 := by
  unfold close_position
  dsimp only
  split
  · simp
  · split
    · simp
    · split
      · simp
      · split
        · rename_i val ev heq
          have hnp := startCycleInvoked_not_in_place u.exchange_type Side.sell s true ok
          rw [heq] at hnp
          simp only [List.mem_append]
          rintro (h | h)
          · exact hnp h
          · simp at h
        · rename_i ev heq
          have hnp := startCycleInvoked_not_in_place u.exchange_type Side.sell s true ok
          rw [heq] at hnp
          exact hnp

theorem startCycleInvoked_not_in_add (p : Option ℚ) (b : ℚ) (ok : Bool)
    (u : UserData) :
    Event.startCycleInvoked ∉ (add_martingale_level p b ok u).2.2 := by
  unfold add_martingale_level
  dsimp only
  split
  · simp
  · split
    · simp
    · split
      · split
        · simp
        · split
          · simp
          · split
            · rename_i val ev heq
              simp only [List.mem_append]
              rintro (h | h)
              · exact startCycleInvoked_not_in_place u.exchange_type Side.buy _ false ok
                  (by rw [heq]; exact h)
              · simp at h
            · rename_i ev heq
              intro h
              exact startCycleInvoked_not_in_place u.exchange_type Side.buy _ false ok
                (by rw [heq]; exact h)
      · simp

/-- C9: while `safe_stop_requested` is set, a processing pass never invokes
`start_new_cycle`; yet when the user is set up, enabled, connected and has an
active position, the take-profit evaluation still runs, and when it triggers
the pass completes the close (its result state is the close's result). -/
theorem C9_safe_stop_suppresses_new_cycles (o : PassOracle) (u : UserData)
    (hstop : u.safe_stop_requested = true) :
    Event.startCycleInvoked ∉ (process_user_trading o u).2.2 ∧
    (u.setup_complete = true → u.trading_enabled = true →
      u.exchange_connected = true → u.is_active = true →
      Event.tpEvaluated
          (check_take_profit o.tpPrice (update_balance_strategy o.refreshBalance u).1)
        ∈ (process_user_trading o u).2.2 ∧
      (check_take_profit o.tpPrice (update_balance_strategy o.refreshBalance u).1 = true →
        (process_user_trading o u).1
          = (close_position o.closePositionSize o.closePrice o.closeOrderOk
              (update_balance_strategy o.refreshBalance u).1).1 ∧
        Event.closeInvoked ∈ (process_user_trading o u).2.2)) := by
  unfold process_user_trading
  dsimp only
  split
  · rename_i hcond
    refine ⟨by simp, ?_⟩
    intro hsetup henabled _ _
    rw [hsetup, henabled] at hcond
    simp at hcond
  · split
    · refine ⟨by simp, ?_⟩
      rename_i hcond1 hcond2
      intro _ _ _ hact
      rw [hact] at hcond2
      simp [hstop] at hcond2
    · split
      · rename_i hcond3
        refine ⟨by simp, ?_⟩
        intro _ _ hexch _
        rw [hexch] at hcond3
        simp at hcond3
      · split
        · rename_i hcond4
          rw [update_balance_strategy_safe_stop, hstop] at hcond4
          simp at hcond4
        · split
          · split
            · -- take-profit branch
              rename_i hactive htp
              constructor
              · simp only [List.mem_append]
                rintro ((h | h) | h)
                · exact startCycleInvoked_not_in_update o.refreshBalance u h
                · simp at h
                · exact startCycleInvoked_not_in_close o.closePositionSize o.closePrice
                    o.closeOrderOk _ h
              · intro _ _ _ _
                rw [htp]
                refine ⟨by simp, fun _ => ⟨rfl, by simp⟩⟩
            · split
              · -- martingale-add branch
                rename_i hactive htp hadd
                constructor
                · simp only [List.mem_append]
                  rintro ((h | h) | h)
                  · exact startCycleInvoked_not_in_update o.refreshBalance u h
                  · simp at h
                  · exact startCycleInvoked_not_in_add o.addPrice o.addBalance
                      o.addOrderOk _ h
                · intro _ _ _ _
                  have hfalse : check_take_profit o.tpPrice
                      (update_balance_strategy o.refreshBalance u).1 = false := by
                    simp only [Bool.not_eq_true] at htp
                    exact htp
                  rw [hfalse]
                  exact ⟨by simp, fun hc => by simp at hc⟩
              · -- no-action branch
                rename_i hactive htp hadd
                constructor
                · simp only [List.mem_append]
                  rintro (h | h)
                  · exact startCycleInvoked_not_in_update o.refreshBalance u h
                  · simp at h
                · intro _ _ _ _
                  have hfalse : check_take_profit o.tpPrice
                      (update_balance_strategy o.refreshBalance u).1 = false := by
                    simp only [Bool.not_eq_true] at htp
                    exact htp
                  rw [hfalse]
                  exact ⟨by simp, fun hc => by simp at hc⟩
          · -- inactive main branch: contradicts the safe-stop early return logic
            rename_i hcond2 hcond4 hinact
            constructor
            · intro h
              exact startCycleInvoked_not_in_update o.refreshBalance u h
            · intro _ _ _ hact
              rw [update_balance_strategy_is_active, hact] at hinact
              simp at hinact

theorem C9_safe_stop_suppresses_new_cycles_witness :
    ({ sampleActiveUser with safe_stop_requested := true } : UserData).safe_stop_requested
      = true ∧
    Event.startCycleInvoked ∉
      (process_user_trading ⟨0, none, 0, false, none, 0, none, false, none, none, 0, false⟩
        { sampleActiveUser with safe_stop_requested := true }).2.2 :=
  ⟨rfl,
   (C9_safe_stop_suppresses_new_cycles
     ⟨0, none, 0, false, none, 0, none, false, none, none, 0, false⟩
     { sampleActiveUser with safe_stop_requested := true } rfl).1⟩
